import Mathlib

/-!
Verification of the MAISI diffusion-model training tutorial notebook
(`generation/maisi/maisi_diff_unet_training_tutorial.ipynb`).

The notebook is orchestration code: it simulates a small NIfTI dataset,
patches three JSON configuration files, and launches three external
framework modules through `torchrun` subprocesses while streaming their
logs.  This file embeds those cells shallowly: JSON dictionaries become
association lists, `os.path.join` and `str.strip` are modelled after
CPython's `posixpath.join` and `str.strip`, subprocess launches become
records of the command and environment passed to `subprocess.Popen`, and
the one cell that mutates dictionaries in place is additionally given a
heap semantics with explicit allocation so that aliasing statements
(deep copy versus mutation of the loaded configs) are meaningful.
-/

namespace Maisi

/-! ### Strings and paths -/

/-- Python `str.startswith`, over the character lists. -/
def str_startswith (s pre : String) : Bool :=
  pre.data.isPrefixOf s.data

/-- Python `str.endswith`, over the character lists. -/
def str_endswith (s suf : String) : Bool :=
  suf.data.isSuffixOf s.data

/-- CPython `posixpath.join` restricted to two components: if `b` is
absolute it replaces `a`; otherwise `b` is appended, inserting `"/"`
unless `a` is empty or already ends with `"/"`. -/
def ospath_join (a b : String) : String :=
  if str_startswith b "/" then b
  else if a = "" ∨ str_endswith a "/" then a ++ b
  else a ++ "/" ++ b

/-- The characters removed by Python `str.strip()`: exactly those with
`str.isspace()` true, namely the ASCII whitespace U+0009 to U+000D and
U+0020, the file/group/record/unit separators U+001C to U+001F, and the
Unicode whitespace U+0085, U+00A0, U+1680, U+2000 to U+200A, U+2028,
U+2029, U+202F, U+205F, U+3000. -/
def pyWhitespace (c : Char) : Bool :=
  let n := c.toNat
  (9 ≤ n ∧ n ≤ 13) ∨ (28 ≤ n ∧ n ≤ 32) ∨ n = 0x85 ∨ n = 0xa0 ∨ n = 0x1680
    ∨ (0x2000 ≤ n ∧ n ≤ 0x200a) ∨ n = 0x2028 ∨ n = 0x2029 ∨ n = 0x202f
    ∨ n = 0x205f ∨ n = 0x3000

/-- Python `str.strip()`: drop leading and trailing whitespace. -/
def pyStrip (s : String) : String :=
  String.mk ((s.data.dropWhile pyWhitespace).reverse.dropWhile pyWhitespace).reverse

/-! ### JSON values

JSON trees as produced by `json.load` / consumed by `json.dump`.
Objects are association lists in insertion order, matching CPython
dictionaries; numbers are rationals (enough for the config files). -/

inductive JValue where
  | null : JValue
  | bool : Bool → JValue
  | num : ℚ → JValue
  | str : String → JValue
  | arr : List JValue → JValue
  | obj : List (String × JValue) → JValue

/-- A JSON object body: bindings in insertion order, as a CPython dict. -/
def JObj := List (String × JValue)

namespace JObj

/-- Python `d[k]` lookup: first (and in a real dict, only) entry with key `k`. -/
def lookup : JObj → String → Option JValue
  | [], _ => none
  | (k1, v1) :: tl, k => if k1 = k then some v1 else lookup tl k

/-- Python `d[k] = v`: replace the value of an existing key in place,
otherwise append the new binding (CPython dicts keep insertion order). -/
def set : JObj → String → JValue → JObj
  | [], k, v => [(k, v)]
  | (k1, v1) :: tl, k, v => if k1 = k then (k, v) :: tl else (k1, v1) :: set tl k v

/-- The keys of the object, in order. -/
def keys (o : JObj) : List String := o.map Prod.fst

end JObj

/-! ### `run_torchrun`: command and environment

The helper builds a `torchrun` command list and passes a copy of
`os.environ` with `OMP_NUM_THREADS` set to `"1"` to `subprocess.Popen`. -/

/-- A process environment: association list of variable/value pairs,
first binding wins (as in a real environment there is one per name). -/
def Env := List (String × String)

/-- Lookup of a variable in an environment (first match). -/
def envLookup : Env → String → Option String
  | [], _ => none
  | (k1, v1) :: tl, k => if k1 = k then some v1 else envLookup tl k

/-- `env[k] = v` on a copied `os.environ` mapping: replace the first
binding of `k`, or append a new one. -/
def envSet : Env → String → String → Env
  | [], k, v => [(k, v)]
  | (k1, v1) :: tl, k, v => if k1 = k then (k, v) :: tl else (k1, v1) :: envSet tl k v

/-- What the notebook hands to `subprocess.Popen`: the argument vector
and the environment. -/
structure LaunchSpec where
  cmd : List String
  env : Env

/-- The command list built by `run_torchrun` (with `num_nodes = 1`):
`["torchrun", "--nproc_per_node", str(num_gpus), "--nnodes", str(num_nodes), "-m", module] + module_args`. -/
def torchrun_command (module : String) (module_args : List String) (num_gpus : Nat) : List String :=
  ["torchrun", "--nproc_per_node", toString num_gpus, "--nnodes", toString (1 : Nat), "-m", module]
    ++ module_args

/-- The `Popen` call made by `run_torchrun`: the command above, in
`env = os.environ.copy()` with `env["OMP_NUM_THREADS"] = "1"`. -/
def run_torchrun_launch (module : String) (module_args : List String) (num_gpus : Nat)
    (os_environ : Env) : LaunchSpec :=
  { cmd := torchrun_command module module_args num_gpus
    env := envSet os_environ "OMP_NUM_THREADS" "1" }

/-! ### `run_torchrun`: streaming loop, exception handling, return value

The helper reads `process.stdout` line by line inside
`try ... except Exception as e: print(f"An error occurred: ...") finally:
stdout, stderr = process.communicate(); print(stdout); if stderr:
print(stderr)` and ends with a bare `return`. -/

/-- What one launched subprocess looks like to the streaming loop:
the lines `readline` yields before end of file (each line carries its
trailing newline, so `readline` yields `""` only at end of file, once
the process has exited and closed the pipe), the leftover stdout and the
stderr that `communicate()` returns afterwards, the exit code, and,
when the loop body raises, the number of lines consumed before the
exception together with the exception text. -/
structure ProcOutcome where
  out_lines : List String
  rest_stdout : String
  stderr : String
  exit_code : Int
  stream_exc : Option (Nat × String)

/-- The `while True` loop: `output = process.stdout.readline()`; break
when `output == ""` with the process exited (modelled as the end of the
line list); `print(output.strip())` whenever `output` is non-empty. -/
def stream_loop : List String → List String
  | [] => []
  | output :: rest =>
      (if output = "" then [] else [pyStrip output]) ++ stream_loop rest

/-- Everything `run_torchrun` prints about one subprocess: the streamed
stripped lines (all of them, or the prefix consumed before an exception
followed by the `except` clause's message), then the `finally` block:
`print(stdout)` unconditionally and `print(stderr)` if `stderr` is
non-empty. -/
def run_torchrun_prints (o : ProcOutcome) : List String :=
  (match o.stream_exc with
    | none => stream_loop o.out_lines
    | some ke => stream_loop (o.out_lines.take ke.1) ++ ["An error occurred: " ++ ke.2])
  ++ [o.rest_stdout]
  ++ (if o.stderr = "" then [] else [o.stderr])

/-- The value `run_torchrun` returns to its caller.  The bare `return`
is reached both when the loop finishes and when the `except Exception`
handler has swallowed a streaming exception, and nothing inspects
`process.returncode`, so every outcome ends in a normal `None` return
(`Except.ok ()`); `Except.error` would model a propagated exception. -/
def run_torchrun_result (o : ProcOutcome) : Except String Unit :=
  match o.stream_exc with
  | none => Except.ok ()
  | some _ => Except.ok ()

/-! ### Notebook constants: directories, datalist, dimensions -/

def work_dir : String := "./temp_work_dir"

def dataroot_dir : String := ospath_join work_dir "sim_dataroot"

def datalist_file : String := ospath_join work_dir "sim_datalist.json"

def env_config_filepath : String := ospath_join work_dir "environment_maisi_diff_model.json"

def model_config_filepath : String := ospath_join work_dir "config_maisi_diff_model.json"

def model_def_filepath : String := ospath_join work_dir "config_maisi.json"

def num_gpus : Nat := 1

def max_epochs : ℚ := 2

/-- The entries of `sim_datalist["training"]`. -/
def sim_datalist_training : List JObj :=
  [[("image", JValue.str "tr_image_001.nii.gz")], [("image", JValue.str "tr_image_002.nii.gz")]]

/-- `sim_datalist = {"training": [{"image": "tr_image_001.nii.gz"}, {"image": "tr_image_002.nii.gz"}]}`. -/
def sim_datalist : JValue :=
  JValue.obj [("training", JValue.arr (sim_datalist_training.map JValue.obj))]

def sim_dim : Nat × Nat × Nat := (224, 224, 96)

/-! ### Generating the simulated images

`create_test_image_3d` is MONAI library code; the notebook only chooses
its arguments.  It is modelled as an arbitrary deterministic function
`gen` of the six arguments the notebook passes: the three spatial sizes,
`rad_max`, `num_seg_classes`, and the seed of the freshly constructed
`np.random.RandomState` (numpy's generator is a deterministic function
of its seed). -/

/-- A NIfTI image as `nib.Nifti1Image(im, affine=...)` assembles it:
the requested spatial sizes (which `create_test_image_3d` returns the
voxel array at), the voxel data, and the affine. -/
structure NiftiImage (α : Type) where
  dims : Nat × Nat × Nat
  data : α
  affine : List (List ℚ)

/-- `np.eye(4)`. -/
def np_eye4 : List (List ℚ) :=
  [[1, 0, 0, 0], [0, 1, 0, 0], [0, 0, 1, 0], [0, 0, 0, 1]]

/-- One iteration of the generation loop: look up `d["image"]` (a
`KeyError`/`TypeError` in `os.path.join` becomes `none`), call
`create_test_image_3d(sim_dim[0], sim_dim[1], sim_dim[2], rad_max=10,
num_seg_classes=1, random_state=np.random.RandomState(42))` and save the
image with `affine=np.eye(4)` at `os.path.join(dataroot_dir, d["image"])`. -/
def sim_image_write {α : Type} (gen : Nat → Nat → Nat → Nat → Nat → Nat → α) (d : JObj) :
    Option (String × NiftiImage α) :=
  match JObj.lookup d "image" with
  | some (JValue.str name) =>
      some (ospath_join dataroot_dir name,
        ⟨sim_dim, gen sim_dim.1 sim_dim.2.1 sim_dim.2.2 10 1 42, np_eye4⟩)
  | _ => none

/-- The whole loop `for d in sim_datalist["training"]`. -/
def generate_sim_images {α : Type} (gen : Nat → Nat → Nat → Nat → Nat → Nat → α) :
    Option (List (String × NiftiImage α)) :=
  sim_datalist_training.mapM (sim_image_write gen)

/-! ### Patching the configuration files (value level)

`json.load` never produces aliased sub-objects and the notebook patches
`copy.deepcopy` copies, so the written contents are captured by pure
functions on the loaded JSON objects; `none` models the `KeyError` /
`TypeError` Python would raise when a read key is missing or has the
wrong type.  (The aliasing behaviour of this cell is modelled separately
by the heap semantics below.) -/

/-- The statement pattern `env_config_out[k] = os.path.join(work_dir,
env_config_out[k])` (`none` when `k` is missing or its value is not the
string `os.path.join` needs). -/
def join_key (o : JObj) (k : String) : Option JObj :=
  match JObj.lookup o k with
  | some (JValue.str s) => some (JObj.set o k (JValue.str (ospath_join work_dir s)))
  | _ => none

/-- The six `env_config_out[...] = ...` statements, in source order. -/
def patch_env_config (e : JObj) : Option JObj := do
  let e1 := JObj.set e "data_base_dir" (JValue.str dataroot_dir)
  let e2 ← join_key e1 "embedding_base_dir"
  let e3 := JObj.set e2 "json_data_list" (JValue.str datalist_file)
  let e4 ← join_key e3 "model_dir"
  let e5 ← join_key e4 "output_dir"
  return JObj.set e5 "trained_autoencoder_path" JValue.null

/-- `model_config_out["diffusion_unet_train"]["n_epochs"] = max_epochs`. -/
def patch_model_config (m : JObj) : Option JObj :=
  match JObj.lookup m "diffusion_unet_train" with
  | some (JValue.obj inner) =>
      some (JObj.set m "diffusion_unet_train" (JValue.obj (JObj.set inner "n_epochs" (JValue.num max_epochs))))
  | _ => none

/-- `model_def_out["autoencoder_def"]["num_splits"] = 4`. -/
def patch_model_def (d : JObj) : Option JObj :=
  match JObj.lookup d "autoencoder_def" with
  | some (JValue.obj inner) =>
      some (JObj.set d "autoencoder_def" (JValue.obj (JObj.set inner "num_splits" (JValue.num 4))))
  | _ => none

/-! ### Sidecar `.json` files for the embedding files -/

/-- `list_gz_files`: `os.walk` visits every file below the folder; the
argument is that list of joined paths, of which the files ending in
`".gz"` are kept. -/
def list_gz_files (files : List String) : List String :=
  files.filter (fun f => str_endswith f ".gz")

/-- The metadata `create_json_files` reads from one NIfTI file:
`img.shape` and `img.header.get_zooms()` (float zooms as rationals). -/
structure NiftiMeta where
  shape : List Nat
  zooms : List ℚ

/-- The dictionary written for one `.gz` file: the first three
dimensions, the zooms truncated to three and converted with `float`,
and the two fixed one-hot region vectors. -/
def sidecar_obj (meta : NiftiMeta) : JObj :=
  [("dim", JValue.arr ((meta.shape.take 3).map (fun n => JValue.num n))),
   ("spacing", JValue.arr (((meta.zooms.take 3).take 3).map JValue.num)),
   ("top_region_index", JValue.arr [JValue.num 0, JValue.num 1, JValue.num 0, JValue.num 0]),
   ("bottom_region_index", JValue.arr [JValue.num 0, JValue.num 0, JValue.num 1, JValue.num 0])]

/-- `create_json_files`: for each `.gz` path, `nib.load` it (modelled by
the metadata function `load`) and write the sidecar dictionary to the
path with `".json"` appended. -/
def create_json_files (gz_files : List String) (load : String → NiftiMeta) :
    List (String × JValue) :=
  gz_files.map (fun gz_file => (gz_file ++ ".json", JValue.obj (sidecar_obj (load gz_file))))

/-! ### The notebook as a whole: file writes and subprocess launches -/

/-- The payload of one file write the notebook performs: either
`json.dump` of a JSON value or `nib.save` of a NIfTI image. -/
inductive FileContent (α : Type) where
  | jsonFile : JValue → FileContent α
  | niftiFile : NiftiImage α → FileContent α

/-- One file write: destination path and payload. -/
structure WriteEvent (α : Type) where
  path : String
  content : FileContent α

/-- Every file write the notebook performs, in order: the datalist dump,
the simulated images, the three patched configs, and the sidecar files
for whatever `.gz` files the embedding directory holds by then (`files`
is what `os.walk` sees there, `load` is `nib.load`).  `none` models the
cell raising. -/
def notebook_writes {α : Type} (gen : Nat → Nat → Nat → Nat → Nat → Nat → α)
    (e m d : JObj) (files : List String) (load : String → NiftiMeta) :
    Option (List (WriteEvent α)) := do
  let sims ← generate_sim_images gen
  let e2 ← patch_env_config e
  let m2 ← patch_model_config m
  let d2 ← patch_model_def d
  return [⟨datalist_file, FileContent.jsonFile sim_datalist⟩]
    ++ sims.map (fun s => ⟨s.1, FileContent.niftiFile s.2⟩)
    ++ [⟨env_config_filepath, FileContent.jsonFile (JValue.obj e2)⟩,
        ⟨model_config_filepath, FileContent.jsonFile (JValue.obj m2)⟩,
        ⟨model_def_filepath, FileContent.jsonFile (JValue.obj d2)⟩]
    ++ (create_json_files (list_gz_files files) load).map
        (fun p => ⟨p.1, FileContent.jsonFile p.2⟩)

/-- The `module_args` list shared by all three stage cells. -/
def config_module_args : List String :=
  ["--env_config", env_config_filepath,
   "--model_config", model_config_filepath,
   "--model_def", model_def_filepath]

/-- The three stage cells run straight through: each calls
`run_torchrun(module, module_args, num_gpus=num_gpus)` and none of them
inspects the previous stage's outcome (`run_torchrun` returns `None`),
so the launch sequence is a constant function of the three outcomes. -/
def pipeline_launches (os_environ : Env) (o1 o2 o3 : ProcOutcome) : List LaunchSpec :=
  [run_torchrun_launch "scripts.diff_model_create_training_data" config_module_args num_gpus os_environ,
   run_torchrun_launch "scripts.diff_model_train" config_module_args num_gpus os_environ,
   run_torchrun_launch "scripts.diff_model_infer" config_module_args num_gpus os_environ]

/-! ### Heap semantics for the configuration-patching cell

The cell mutates dictionaries in place (`env_config_out[...] = ...`,
`model_config_out["diffusion_unet_train"]["n_epochs"] = ...`), and the
claim that the loaded configs survive unchanged is about aliasing, so
this cell also gets a semantics with an explicit heap: every Python dict
is a heap cell, dict-valued fields hold references, and `copy.deepcopy`
allocates a fresh tree. -/

/-- A runtime value: leaves are immutable Python values, lists are kept
structural (the cell never mutates a list), dicts are references. -/
inductive HVal where
  | null : HVal
  | bool : Bool → HVal
  | num : ℚ → HVal
  | str : String → HVal
  | arr : List HVal → HVal
  | ref : Nat → HVal

/-- A heap cell: one Python dict, bindings in insertion order. -/
abbrev HObj := List (String × HVal)

/-- The heap: cell `i` is the dict at address `i`. -/
abbrev Heap := List HObj

namespace HObj

/-- `d[k]` on a heap cell. -/
def lookup : HObj → String → Option HVal
  | [], _ => none
  | (k1, v1) :: tl, k => if k1 = k then some v1 else lookup tl k

/-- `d[k] = v` on a heap cell. -/
def set : HObj → String → HVal → HObj
  | [], k, v => [(k, v)]
  | (k1, v1) :: tl, k, v => if k1 = k then (k, v) :: tl else (k1, v1) :: set tl k v

end HObj

/-! Building fresh trees on the heap.  `json.load` materialises a parsed
tree with every dict freshly allocated and no internal sharing, and
`copy.deepcopy` of such a tree does the same, so both are modelled by
allocating the pure `JValue` tree bottom-up; a dict's fields are
allocated before the dict's own cell is appended, so references always
point strictly downwards. -/

mutual
def allocJ : JValue → Heap → Heap × HVal
  | JValue.null, h => (h, HVal.null)
  | JValue.bool b, h => (h, HVal.bool b)
  | JValue.num q, h => (h, HVal.num q)
  | JValue.str s, h => (h, HVal.str s)
  | JValue.arr l, h =>
      let p := allocArr l h
      (p.1, HVal.arr p.2)
  | JValue.obj o, h =>
      let p := allocObj o h
      (p.1 ++ [p.2], HVal.ref p.1.length)

def allocArr : List JValue → Heap → Heap × List HVal
  | [], h => (h, [])
  | v :: tl, h =>
      let p := allocJ v h
      let q := allocArr tl p.1
      (q.1, p.2 :: q.2)

def allocObj : List (String × JValue) → Heap → Heap × HObj
  | [], h => (h, [])
  | kv :: tl, h =>
      let p := allocJ kv.2 h
      let q := allocObj tl p.1
      (q.1, (kv.1, p.2) :: q.2)
end

/-! Reading a value back out of the heap.  The fuel decreases at every
level, so a read succeeds once the fuel exceeds the height of the tree;
with too little fuel the read returns `none`, never a wrong value. -/

def readH (h : Heap) : Nat → HVal → Option JValue
  | 0, _ => none
  | _ + 1, HVal.null => some JValue.null
  | _ + 1, HVal.bool b => some (JValue.bool b)
  | _ + 1, HVal.num q => some (JValue.num q)
  | _ + 1, HVal.str s => some (JValue.str s)
  | fuel + 1, HVal.arr l => (l.mapM (readH h fuel)).map JValue.arr
  | fuel + 1, HVal.ref a =>
      match h[a]? with
      | none => none
      | some o =>
          (o.mapM (fun kv => (readH h fuel kv.2).map (fun j => (kv.1, j)))).map JValue.obj

/-! Address-window predicates used to reason about freshness of the
allocations and about which cells a read can inspect. -/

mutual
/-- All references in a value lie in the address window `[lo, hi)`. -/
def refsIn (lo hi : Nat) : HVal → Bool
  | HVal.null => true
  | HVal.bool _ => true
  | HVal.num _ => true
  | HVal.str _ => true
  | HVal.arr l => refsInList lo hi l
  | HVal.ref a => decide (lo ≤ a) && decide (a < hi)

/-- All references in a list of values lie in the window `[lo, hi)`. -/
def refsInList (lo hi : Nat) : List HVal → Bool
  | [] => true
  | v :: tl => refsIn lo hi v && refsInList lo hi tl
end

/-- All references in a heap cell lie in the window `[lo, hi)`. -/
def refsInObj (lo hi : Nat) (o : HObj) : Bool :=
  o.all (fun kv => refsIn lo hi kv.2)

/-- The first `n` cells of the heap only reference addresses below `n`. -/
def closedBelow (h : Heap) (n : Nat) : Prop :=
  ∀ i, i < n → ∀ o, h[i]? = some o → refsInObj 0 n o = true

/-- The two heaps agree on the first `n` cells. -/
def agreeBelow (h1 h2 : Heap) (n : Nat) : Prop :=
  ∀ i, i < n → h1[i]? = h2[i]?

/-- `H` extends `h`: same cells below `h.length`, possibly more above. -/
def heapExtends (H h : Heap) : Prop :=
  h.length ≤ H.length ∧ ∀ i, i < h.length → H[i]? = h[i]?

/-! Heap-level accessors used by the cell. -/

/-- Read `obj[k]` through a reference (a `TypeError` on anything that is
not a dict reference, a `KeyError` on a missing key, both `none`). -/
def readKeyAt (h : Heap) (v : HVal) (k : String) : Option HVal :=
  match v with
  | HVal.ref a =>
      match h[a]? with
      | some o => HObj.lookup o k
      | none => none
  | _ => none

/-- Execute `obj[k] = x` through a reference: mutate the cell in place. -/
def writeKeyAt (h : Heap) (v : HVal) (k : String) (x : HVal) : Option Heap :=
  match v with
  | HVal.ref a =>
      match h[a]? with
      | some o => some (List.set h a (HObj.set o k x))
      | none => none
  | _ => none

/-- `copy.deepcopy`: the copied tree read out of the heap, re-allocated
fresh (exact for `json.load`-produced trees, which have no internal
sharing). -/
def deepcopyH (h : Heap) (fuel : Nat) (v : HVal) : Option (Heap × HVal) :=
  (readH h fuel v).map (fun j => allocJ j h)

/-- The variables of the configuration cell after it has run. -/
structure CellState where
  heap : Heap
  env_config : HVal
  model_config : HVal
  model_def : HVal
  env_config_out : HVal
  model_config_out : HVal
  model_def_out : HVal

/-- Read `obj[k]` through a reference, requiring a string value (as
`os.path.join` does; anything else raises, modelled by `none`). -/
def readStrKey (H : Heap) (v : HVal) (k : String) : Option String :=
  match readKeyAt H v k with
  | some (HVal.str s) => some s
  | _ => none

/-- The six `env_config_out[...] = ...` statements of the cell, run on
the heap through the reference `vOut` held by `env_config_out`, in
source order. -/
def envPatchHeapStep (H : Heap) (vOut : HVal) : Option Heap := do
  let h7 ← writeKeyAt H vOut "data_base_dir" (HVal.str dataroot_dir)
  let emb ← readStrKey h7 vOut "embedding_base_dir"
  let h8 ← writeKeyAt h7 vOut "embedding_base_dir" (HVal.str (ospath_join work_dir emb))
  let h9 ← writeKeyAt h8 vOut "json_data_list" (HVal.str datalist_file)
  let md ← readStrKey h9 vOut "model_dir"
  let h10 ← writeKeyAt h9 vOut "model_dir" (HVal.str (ospath_join work_dir md))
  let od ← readStrKey h10 vOut "output_dir"
  let h11 ← writeKeyAt h10 vOut "output_dir" (HVal.str (ospath_join work_dir od))
  writeKeyAt h11 vOut "trained_autoencoder_path" HVal.null

/-- A nested in-place update `out[outerKey][innerKey] = q`: read the
inner dict reference out of the outer dict, then mutate that cell. -/
def nestedNumStep (H : Heap) (vOut : HVal) (outerKey innerKey : String) (q : ℚ) :
    Option Heap := do
  let inner ← readKeyAt H vOut outerKey
  writeKeyAt H inner innerKey (HVal.num q)

/-- Heap-level run of the configuration cell: the three `json.load`s,
the three `copy.deepcopy`s, the six `env_config_out` updates in source
order, and the two nested updates
`model_config_out["diffusion_unet_train"]["n_epochs"] = max_epochs` and
`model_def_out["autoencoder_def"]["num_splits"] = 4`.  `fuel` bounds the
copy depth; `none` models a raised `KeyError`/`TypeError`. -/
def runConfigCell (fuel : Nat) (e m d : JObj) : Option CellState := do
  let pe := allocJ (JValue.obj e) []
  let pm := allocJ (JValue.obj m) pe.1
  let pd := allocJ (JValue.obj d) pm.1
  let qe ← deepcopyH pd.1 fuel pe.2
  let qm ← deepcopyH qe.1 fuel pm.2
  let qd ← deepcopyH qm.1 fuel pd.2
  let h12 ← envPatchHeapStep qd.1 qe.2
  let h13 ← nestedNumStep h12 qm.2 "diffusion_unet_train" "n_epochs" max_epochs
  let h14 ← nestedNumStep h13 qd.2 "autoencoder_def" "num_splits" 4
  return ⟨h14, pe.2, pm.2, pd.2, qe.2, qm.2, qd.2⟩

/-- The write classification asserted by the spec (stated from the
spec's words, for comparison with the code's write list): a write is a
NIfTI image file, or a JSON configuration dictionary — namely the
environment-paths config, the model-hyperparameter config, or the model
definition. -/
def c7_spec_write_kinds {α : Type} (w : WriteEvent α) : Prop :=
  (∃ img, w.content = FileContent.niftiFile img)
  ∨ (∃ j, w.content = FileContent.jsonFile j
      ∧ (w.path = env_config_filepath ∨ w.path = model_config_filepath
         ∨ w.path = model_def_filepath))

/-- A trivial stand-in voxel generator (volume type `Unit`). -/
def unit_gen : Nat → Nat → Nat → Nat → Nat → Nat → Unit := fun _ _ _ _ _ _ => ()

/-- A trivial NIfTI metadata reader. -/
def default_meta : String → NiftiMeta := fun _ => ⟨[], []⟩

/-! ### Sample configuration contents used to exercise the model -/

def sample_env_config : JObj :=
  [("embedding_base_dir", JValue.str "embeddings"),
   ("model_dir", JValue.str "models"),
   ("output_dir", JValue.str "predictions"),
   ("extra", JValue.num 5)]

def sample_model_config : JObj :=
  [("diffusion_unet_train", JValue.obj [("n_epochs", JValue.num 1000), ("lr", JValue.num 1)]),
   ("other", JValue.str "z")]

def sample_model_def : JObj :=
  [("autoencoder_def", JValue.obj [("num_splits", JValue.num 16)]),
   ("spatial_dims", JValue.num 3)]

/-! ### Claim theorems and their supporting lemmas -/

theorem JObj.lookup_set_self (o : JObj) (k : String) (v : JValue) :
    JObj.lookup (JObj.set o k v) k = some v := by
  induction o with
  | nil => simp [JObj.set, JObj.lookup]
  | cons p tl ih =>
      by_cases h : p.1 = k
      · simp [JObj.set, h, JObj.lookup]
      · simp [JObj.set, h, JObj.lookup, ih]

theorem JObj.lookup_set_other (o : JObj) (k k2 : String) (v : JValue) (h : k2 ≠ k) :
    JObj.lookup (JObj.set o k v) k2 = JObj.lookup o k2 := by
  have hk : k ≠ k2 := fun hh => h hh.symm
  induction o with
  | nil => simp [JObj.set, JObj.lookup, hk]
  | cons p tl ih =>
      by_cases h1 : p.1 = k
      · simp [JObj.set, h1, JObj.lookup, hk]
      · simp [JObj.set, h1, JObj.lookup, ih]

theorem envLookup_envSet_self (e : Env) (k v : String) :
    envLookup (envSet e k v) k = some v := by
  induction e with
  | nil => simp [envSet, envLookup]
  | cons p tl ih =>
      by_cases h : p.1 = k
      · simp [envSet, h, envLookup]
      · simp [envSet, h, envLookup, ih]

theorem envLookup_envSet_other (e : Env) (k k2 v : String) (h : k2 ≠ k) :
    envLookup (envSet e k v) k2 = envLookup e k2 := by
  have hk : k ≠ k2 := fun hh => h hh.symm
  induction e with
  | nil => simp [envSet, envLookup, hk]
  | cons p tl ih =>
      by_cases h1 : p.1 = k
      · simp [envSet, h1, envLookup, hk]
      · simp [envSet, h1, envLookup, ih]

/-- C1: the notebook drives a three-stage pipeline by launching exactly
three external framework modules as subprocesses, in this order:
`scripts.diff_model_create_training_data`, then
`scripts.diff_model_train`, then `scripts.diff_model_infer`, each via
the same process-launcher helper with the same three config-file
arguments. -/
theorem C1_three_stage_pipeline :
    ∀ (os_environ : Env) (o1 o2 o3 : ProcOutcome),
      pipeline_launches os_environ o1 o2 o3 =
        [run_torchrun_launch "scripts.diff_model_create_training_data" config_module_args num_gpus os_environ,
         run_torchrun_launch "scripts.diff_model_train" config_module_args num_gpus os_environ,
         run_torchrun_launch "scripts.diff_model_infer" config_module_args num_gpus os_environ]
      ∧ config_module_args =
          ["--env_config", "./temp_work_dir/environment_maisi_diff_model.json",
           "--model_config", "./temp_work_dir/config_maisi_diff_model.json",
           "--model_def", "./temp_work_dir/config_maisi.json"] :=
  fun _ _ _ _ => ⟨rfl, rfl⟩

/-- C3: for every module name and argument list, `run_torchrun` launches
exactly the command `["torchrun", "--nproc_per_node", str(num_gpus),
"--nnodes", "1", "-m", module]` followed by the module arguments, in an
environment equal to the caller's except that `OMP_NUM_THREADS` is
`"1"`. -/
theorem C3_run_torchrun_launch_shape :
    ∀ (module : String) (module_args : List String) (n : Nat) (os_environ : Env),
      (run_torchrun_launch module module_args n os_environ).cmd =
        ["torchrun", "--nproc_per_node", toString n, "--nnodes", "1", "-m", module] ++ module_args
      ∧ ∀ k, envLookup (run_torchrun_launch module module_args n os_environ).env k =
          if k = "OMP_NUM_THREADS" then some "1" else envLookup os_environ k := by
  intro module module_args n os_environ
  refine ⟨rfl, fun k => ?_⟩
  by_cases h : k = "OMP_NUM_THREADS"
  · subst h
    simp [run_torchrun_launch, envLookup_envSet_self]
  · simp [run_torchrun_launch, h, envLookup_envSet_other os_environ _ _ _ h]

/-- The streaming loop prints exactly the stdout lines, stripped, in
order (`readline` yields `""` only at end of file, so no line is
empty). -/
theorem stream_loop_strips (lines : List String)
    (hlines : ∀ l ∈ lines, l ≠ "") :
    stream_loop lines = lines.map pyStrip := by
  induction lines with
  | nil => rfl
  | cons l tl ih =>
      have hl : l ≠ "" := hlines l (List.mem_cons_self l tl)
      simp [stream_loop, hl, ih (fun x hx => hlines x (List.mem_cons_of_mem l hx))]

/-- Counterexample to C4: stderr is not printed in a streaming fashion,
line by line and stripped.  On a run whose stderr is `" err \n"`, the
helper prints the stdout line stripped, then the leftover stdout that
`communicate()` returns, and then — only after the process has exited —
the whole stderr once, unstripped; the stripped stderr line `"err"` is
never printed. -/
theorem C4_counterexample :
    run_torchrun_prints ⟨["ok\n"], "", " err \n", 0, none⟩ = ["ok", "", " err \n"]
    ∧ pyStrip " err \n" = "err"
    ∧ "err" ∉ run_torchrun_prints ⟨["ok\n"], "", " err \n", 0, none⟩ := by
  refine ⟨rfl, rfl, ?_⟩
  decide

/-- C4 as amended: while a launched subprocess runs, only its stdout is
printed in a streaming fashion — each line printed, stripped, as it is
produced, until the stream is exhausted and the process has exited;
stderr is not streamed: the `finally` block then prints the stdout
remainder returned by `communicate()` and, only if it is non-empty, the
stderr once, unstripped. -/
theorem C4_stdout_streamed_stderr_once :
    ∀ (o : ProcOutcome), (∀ l ∈ o.out_lines, l ≠ "") → o.stream_exc = none →
      run_torchrun_prints o
        = o.out_lines.map pyStrip ++ [o.rest_stdout]
          ++ (if o.stderr = "" then [] else [o.stderr]) := by
  intro o hl hexc
  have hs := stream_loop_strips o.out_lines hl
  simp [run_torchrun_prints, hexc, hs]

/-- Witness for the amended C4 at a concrete outcome with two stdout
lines and a non-empty stderr. -/
theorem C4_amended_witness :
    run_torchrun_prints ⟨["ab\n", " x \n"], "", "boom\n", 3, none⟩
      = ["ab\n", " x \n"].map pyStrip ++ [""]
        ++ (if "boom\n" = "" then [] else ["boom\n"]) :=
  C4_stdout_streamed_stderr_once ⟨["ab\n", " x \n"], "", "boom\n", 3, none⟩ (by decide) rfl

/-- `join_key` changes no key other than the one it joins. -/
theorem join_key_frame (o o2 : JObj) (k k2 : String) (h : join_key o k = some o2)
    (hne : k2 ≠ k) : JObj.lookup o2 k2 = JObj.lookup o k2 := by
  unfold join_key at h
  split at h
  · cases h
    exact JObj.lookup_set_other _ _ _ _ hne
  · cases h

/-- C2: the configuration-patching step writes three JSON files into the
work directory; the written model configuration equals the loaded one
except that `diffusion_unet_train.n_epochs` is set to 2, the written
model definition equals the loaded one except that
`autoencoder_def.num_splits` is set to 4, and the written environment
configuration equals the loaded one except for `data_base_dir`,
`embedding_base_dir`, `json_data_list`, `model_dir`, `output_dir`, and
`trained_autoencoder_path` (the last set to null); every unlisted field
is unchanged. -/
theorem C2_config_patching (e m d e2 m2 d2 : JObj)
    (he : patch_env_config e = some e2)
    (hm : patch_model_config m = some m2)
    (hd : patch_model_def d = some d2) :
    (env_config_filepath = "./temp_work_dir/environment_maisi_diff_model.json"
     ∧ model_config_filepath = "./temp_work_dir/config_maisi_diff_model.json"
     ∧ model_def_filepath = "./temp_work_dir/config_maisi.json")
    ∧ (∀ k, k ≠ "data_base_dir" → k ≠ "embedding_base_dir" → k ≠ "json_data_list" →
          k ≠ "model_dir" → k ≠ "output_dir" → k ≠ "trained_autoencoder_path" →
          JObj.lookup e2 k = JObj.lookup e k)
    ∧ JObj.lookup e2 "trained_autoencoder_path" = some JValue.null
    ∧ (∀ k, k ≠ "diffusion_unet_train" → JObj.lookup m2 k = JObj.lookup m k)
    ∧ (∃ inner, JObj.lookup m "diffusion_unet_train" = some (JValue.obj inner)
        ∧ JObj.lookup m2 "diffusion_unet_train"
            = some (JValue.obj (JObj.set inner "n_epochs" (JValue.num 2)))
        ∧ JObj.lookup (JObj.set inner "n_epochs" (JValue.num 2)) "n_epochs"
            = some (JValue.num 2)
        ∧ ∀ k2, k2 ≠ "n_epochs" →
            JObj.lookup (JObj.set inner "n_epochs" (JValue.num 2)) k2 = JObj.lookup inner k2)
    ∧ (∀ k, k ≠ "autoencoder_def" → JObj.lookup d2 k = JObj.lookup d k)
    ∧ (∃ inner, JObj.lookup d "autoencoder_def" = some (JValue.obj inner)
        ∧ JObj.lookup d2 "autoencoder_def"
            = some (JValue.obj (JObj.set inner "num_splits" (JValue.num 4)))
        ∧ JObj.lookup (JObj.set inner "num_splits" (JValue.num 4)) "num_splits"
            = some (JValue.num 4)
        ∧ ∀ k2, k2 ≠ "num_splits" →
            JObj.lookup (JObj.set inner "num_splits" (JValue.num 4)) k2 = JObj.lookup inner k2) := by
  rw [patch_env_config] at he
  simp only [Option.bind_eq_bind, Option.bind_eq_some, Option.some.injEq] at he
  obtain ⟨ea, hea, eb, heb, ec, hec, he2⟩ := he
  simp only [Option.pure_def, Option.some.injEq] at he2
  subst he2
  rw [patch_model_config] at hm
  rw [patch_model_def] at hd
  refine ⟨⟨rfl, rfl, rfl⟩, ?_, ?_, ?_, ?_, ?_, ?_⟩
  · intro k k1 k2 k3 k4 k5 k6
    rw [JObj.lookup_set_other _ _ _ _ k6, join_key_frame _ _ _ _ hec k5,
        join_key_frame _ _ _ _ heb k4, JObj.lookup_set_other _ _ _ _ k3,
        join_key_frame _ _ _ _ hea k2, JObj.lookup_set_other _ _ _ _ k1]
  · exact JObj.lookup_set_self _ _ _
  · intro k hk
    split at hm
    · cases hm
      exact JObj.lookup_set_other _ _ _ _ hk
    · cases hm
  · split at hm
    · cases hm
      next inner heq =>
        exact ⟨inner, heq, JObj.lookup_set_self _ _ _, JObj.lookup_set_self _ _ _,
          fun k2 hk2 => JObj.lookup_set_other _ _ _ _ hk2⟩
    · cases hm
  · intro k hk
    split at hd
    · cases hd
      exact JObj.lookup_set_other _ _ _ _ hk
    · cases hd
  · split at hd
    · cases hd
      next inner heq =>
        exact ⟨inner, heq, JObj.lookup_set_self _ _ _, JObj.lookup_set_self _ _ _,
          fun k2 hk2 => JObj.lookup_set_other _ _ _ _ hk2⟩
    · cases hd

/-- Witness for C2 at concrete configuration contents. -/
theorem C2_witness :
    JObj.lookup ((patch_env_config sample_env_config).getD []) "extra"
      = JObj.lookup sample_env_config "extra"
    ∧ JObj.lookup ((patch_env_config sample_env_config).getD []) "trained_autoencoder_path"
      = some JValue.null
    ∧ JObj.lookup ((patch_model_config sample_model_config).getD []) "other"
      = JObj.lookup sample_model_config "other" :=
  have h := C2_config_patching sample_env_config sample_model_config sample_model_def
    ((patch_env_config sample_env_config).getD [])
    ((patch_model_config sample_model_config).getD [])
    ((patch_model_def sample_model_def).getD []) rfl rfl rfl
  ⟨h.2.1 "extra" (by decide) (by decide) (by decide) (by decide) (by decide) (by decide),
   h.2.2.1, h.2.2.2.1 "other" (by decide)⟩

/-- C5: the simulated-data step writes the datalist dictionary (listing
exactly `tr_image_001.nii.gz` and `tr_image_002.nii.gz`) to
`sim_datalist.json`, and for every entry of the training list generates
one synthetic volume with dimensions `sim_dim = (224, 224, 96)` and
identity 4×4 affine, saved under the data-root directory with that
entry's filename. -/
theorem C5_simulated_data :
    ∀ (α : Type) (gen : Nat → Nat → Nat → Nat → Nat → Nat → α),
      sim_datalist = JValue.obj [("training", JValue.arr
          [JValue.obj [("image", JValue.str "tr_image_001.nii.gz")],
           JValue.obj [("image", JValue.str "tr_image_002.nii.gz")]])]
      ∧ datalist_file = "./temp_work_dir/sim_datalist.json"
      ∧ sim_dim = (224, 224, 96)
      ∧ generate_sim_images gen = some
          [("./temp_work_dir/sim_dataroot/tr_image_001.nii.gz",
            ⟨(224, 224, 96), gen 224 224 96 10 1 42, np_eye4⟩),
           ("./temp_work_dir/sim_dataroot/tr_image_002.nii.gz",
            ⟨(224, 224, 96), gen 224 224 96 10 1 42, np_eye4⟩)]
      ∧ np_eye4 = [[1, 0, 0, 0], [0, 1, 0, 0], [0, 0, 1, 0], [0, 0, 0, 1]] :=
  fun _ _ => ⟨rfl, rfl, rfl, rfl, rfl⟩

/-- C6: no failure handling: `run_torchrun` returns normally for every
subprocess outcome (regardless of the exit code), an exception raised
while streaming is caught and its message printed rather than
propagated, and the launch sequence of the pipeline does not depend on
the stages' outcomes, so a failed stage does not prevent the later
launches. -/
theorem C6_no_failure_handling :
    ∀ (o : ProcOutcome),
      run_torchrun_result o = Except.ok ()
      ∧ (∀ k e, o.stream_exc = some (k, e) →
          ("An error occurred: " ++ e) ∈ run_torchrun_prints o)
      ∧ ∀ (os_environ : Env) (a1 a2 a3 b1 b2 b3 : ProcOutcome),
          pipeline_launches os_environ a1 a2 a3 = pipeline_launches os_environ b1 b2 b3 := by
  intro o
  refine ⟨?_, ?_, fun _ _ _ _ _ _ _ => rfl⟩
  · cases h : o.stream_exc <;> simp [run_torchrun_result, h]
  · intro k e he
    simp [run_torchrun_prints, he]

/-- Witness for C6 at a concrete outcome with nonzero exit code and a
streaming exception. -/
theorem C6_witness :
    run_torchrun_result ⟨["a\n"], "", "boom-err", 1, some (1, "boom")⟩ = Except.ok ()
    ∧ ("An error occurred: " ++ "boom") ∈
        run_torchrun_prints ⟨["a\n"], "", "boom-err", 1, some (1, "boom")⟩ :=
  ⟨(C6_no_failure_handling ⟨["a\n"], "", "boom-err", 1, some (1, "boom")⟩).1,
   (C6_no_failure_handling ⟨["a\n"], "", "boom-err", 1, some (1, "boom")⟩).2.1 1 "boom" rfl⟩

/-- Counterexample to C7: the very first write the notebook performs —
`json.dump(sim_datalist, f)` to `sim_datalist.json` — is a JSON file
that is none of the three named configuration files (and not a NIfTI
image), so not every write produces one of the spec's enumerated
entities. -/
theorem C7_counterexample :
    ((notebook_writes unit_gen sample_env_config sample_model_config sample_model_def
        [] default_meta).getD []).head?
      = some ⟨datalist_file, FileContent.jsonFile sim_datalist⟩
    ∧ ¬ c7_spec_write_kinds
        (⟨datalist_file, FileContent.jsonFile sim_datalist⟩ : WriteEvent Unit) := by
  refine ⟨rfl, ?_⟩
  rintro (⟨img, h⟩ | ⟨j, hj, hpath | hpath | hpath⟩)
  · cases h
  · revert hpath
    decide
  · revert hpath
    decide
  · revert hpath
    decide

/-- C7 as amended: every write the notebook performs is either a JSON
dump — the datalist, one of the three configuration files, or a
`.gz`-sidecar attribute file — or a NIfTI image file. -/
theorem C7_amended_write_kinds :
    ∀ (α : Type) (gen : Nat → Nat → Nat → Nat → Nat → Nat → α) (e m d : JObj)
      (files : List String) (load : String → NiftiMeta) (ws : List (WriteEvent α)),
      notebook_writes gen e m d files load = some ws →
      ∀ w ∈ ws,
        (∃ img, w.content = FileContent.niftiFile img)
        ∨ (∃ j, w.content = FileContent.jsonFile j ∧
            (w.path = datalist_file ∨ w.path = env_config_filepath
             ∨ w.path = model_config_filepath ∨ w.path = model_def_filepath
             ∨ ∃ g, g ∈ list_gz_files files ∧ w.path = g ++ ".json")) := by
  intro α gen e m d files load ws hws w hw
  rw [notebook_writes] at hws
  simp only [Option.bind_eq_bind, Option.bind_eq_some, Option.pure_def, Option.some.injEq] at hws
  obtain ⟨sims, hsims, e2, he2, m2, hm2, d2, hd2, hws⟩ := hws
  subst hws
  simp only [List.mem_append, List.mem_cons, List.mem_map, List.not_mem_nil, or_false] at hw
  rcases hw with ((hw | ⟨s, hs, rfl⟩) | (hw | hw | hw)) | ⟨p, hp, rfl⟩
  · subst hw
    exact Or.inr ⟨sim_datalist, rfl, Or.inl rfl⟩
  · exact Or.inl ⟨s.2, rfl⟩
  · subst hw
    exact Or.inr ⟨JValue.obj e2, rfl, Or.inr (Or.inl rfl)⟩
  · subst hw
    exact Or.inr ⟨JValue.obj m2, rfl, Or.inr (Or.inr (Or.inl rfl))⟩
  · subst hw
    exact Or.inr ⟨JValue.obj d2, rfl, Or.inr (Or.inr (Or.inr (Or.inl rfl)))⟩
  · obtain ⟨g, hg, rfl⟩ := List.mem_map.mp hp
    exact Or.inr ⟨JValue.obj (sidecar_obj (load g)), rfl,
      Or.inr (Or.inr (Or.inr (Or.inr ⟨g, hg, rfl⟩)))⟩

/-- Witness for the amended C7 at concrete inputs: the datalist write is
classified as a JSON write. -/
theorem C7_amended_witness :
    (∃ img, (⟨datalist_file, FileContent.jsonFile sim_datalist⟩ : WriteEvent Unit).content
        = FileContent.niftiFile img)
    ∨ (∃ j, (⟨datalist_file, FileContent.jsonFile sim_datalist⟩ : WriteEvent Unit).content
          = FileContent.jsonFile j ∧
        ((⟨datalist_file, FileContent.jsonFile sim_datalist⟩ : WriteEvent Unit).path = datalist_file
         ∨ (⟨datalist_file, FileContent.jsonFile sim_datalist⟩ : WriteEvent Unit).path = env_config_filepath
         ∨ (⟨datalist_file, FileContent.jsonFile sim_datalist⟩ : WriteEvent Unit).path = model_config_filepath
         ∨ (⟨datalist_file, FileContent.jsonFile sim_datalist⟩ : WriteEvent Unit).path = model_def_filepath
         ∨ ∃ g, g ∈ list_gz_files [] ∧
            (⟨datalist_file, FileContent.jsonFile sim_datalist⟩ : WriteEvent Unit).path = g ++ ".json")) :=
  C7_amended_write_kinds Unit unit_gen sample_env_config sample_model_config sample_model_def
    [] default_meta
    ((notebook_writes unit_gen sample_env_config sample_model_config sample_model_def
        [] default_meta).getD [])
    rfl
    ⟨datalist_file, FileContent.jsonFile sim_datalist⟩
    (List.Mem.head _)

/-- A path with `".json"` appended never ends in `".gz"`. -/
theorem endswith_append_json (s : String) : str_endswith (s ++ ".json") ".gz" = false := by
  have h1 : (s ++ ".json").data = s.data ++ ['.', 'j', 's', 'o', 'n'] := by
    rw [String.data_append]
  unfold str_endswith List.isSuffixOf
  rw [h1, List.reverse_append]
  simp [List.isPrefixOf]

/-- C9: for every file ending in `".gz"` found under the embedding
directory, the sidecar step writes exactly one JSON file at the path
with `".json"` appended, containing exactly the keys `dim` (first three
dimensions), `spacing` (first three zooms as floats),
`top_region_index = [0,1,0,0]` and `bottom_region_index = [0,0,1,0]`;
other files (including previously written sidecars) are ignored, so a
second run recreates the same set of files. -/
theorem C9_sidecar_files :
    ∀ (files : List String) (load : String → NiftiMeta) (meta : NiftiMeta),
      create_json_files (list_gz_files files) load =
        (files.filter (fun f => str_endswith f ".gz")).map
          (fun g => (g ++ ".json", JValue.obj (sidecar_obj (load g))))
      ∧ JObj.keys (sidecar_obj meta) = ["dim", "spacing", "top_region_index", "bottom_region_index"]
      ∧ JObj.lookup (sidecar_obj meta) "dim"
          = some (JValue.arr ((meta.shape.take 3).map (fun n => JValue.num n)))
      ∧ JObj.lookup (sidecar_obj meta) "spacing"
          = some (JValue.arr ((meta.zooms.take 3).map JValue.num))
      ∧ JObj.lookup (sidecar_obj meta) "top_region_index"
          = some (JValue.arr [JValue.num 0, JValue.num 1, JValue.num 0, JValue.num 0])
      ∧ JObj.lookup (sidecar_obj meta) "bottom_region_index"
          = some (JValue.arr [JValue.num 0, JValue.num 0, JValue.num 1, JValue.num 0])
      ∧ create_json_files
            (list_gz_files (files ++ (create_json_files (list_gz_files files) load).map Prod.fst))
            load
          = create_json_files (list_gz_files files) load := by
  intro files load meta
  have hnil : ∀ (gz : List String),
      ((create_json_files gz load).map Prod.fst).filter (fun f => str_endswith f ".gz") = [] := by
    intro gz
    rw [List.filter_eq_nil_iff]
    intro a ha
    obtain ⟨p, hp, rfl⟩ := List.mem_map.mp ha
    obtain ⟨g, hg, rfl⟩ := List.mem_map.mp hp
    simp [endswith_append_json]
  have hsecond :
      list_gz_files (files ++ (create_json_files (list_gz_files files) load).map Prod.fst)
        = list_gz_files files := by
    unfold list_gz_files
    rw [List.filter_append, hnil, List.append_nil]
  refine ⟨rfl, rfl, ?_, ?_, ?_, ?_, by rw [hsecond]⟩
  · rfl
  · simp [sidecar_obj, JObj.lookup, List.take_take]
  · rfl
  · rfl

/-! #### Heap lemmas for the configuration cell -/

mutual
theorem refsIn_mono : ∀ (v : HVal) (lo hi lo2 hi2 : Nat), lo2 ≤ lo → hi ≤ hi2 →
    refsIn lo hi v = true → refsIn lo2 hi2 v = true
  | HVal.null, _, _, _, _, _, _, _ => rfl
  | HVal.bool _, _, _, _, _, _, _, _ => rfl
  | HVal.num _, _, _, _, _, _, _, _ => rfl
  | HVal.str _, _, _, _, _, _, _, _ => rfl
  | HVal.arr l, lo, hi, lo2, hi2, hlo, hhi, hr =>
      refsInList_mono l lo hi lo2 hi2 hlo hhi hr
  | HVal.ref a, lo, hi, lo2, hi2, hlo, hhi, hr => by
      simp only [refsIn, Bool.and_eq_true, decide_eq_true_eq] at hr ⊢
      exact ⟨le_trans hlo hr.1, lt_of_lt_of_le hr.2 hhi⟩

theorem refsInList_mono : ∀ (l : List HVal) (lo hi lo2 hi2 : Nat), lo2 ≤ lo → hi ≤ hi2 →
    refsInList lo hi l = true → refsInList lo2 hi2 l = true
  | [], _, _, _, _, _, _, _ => rfl
  | v :: tl, lo, hi, lo2, hi2, hlo, hhi, hr => by
      simp only [refsInList, Bool.and_eq_true] at hr ⊢
      exact ⟨refsIn_mono v lo hi lo2 hi2 hlo hhi hr.1,
        refsInList_mono tl lo hi lo2 hi2 hlo hhi hr.2⟩
end

theorem refsInObj_mono (o : HObj) (lo hi lo2 hi2 : Nat) (hlo : lo2 ≤ lo) (hhi : hi ≤ hi2)
    (h : refsInObj lo hi o = true) : refsInObj lo2 hi2 o = true := by
  simp only [refsInObj, List.all_eq_true] at h ⊢
  intro kv hkv
  exact refsIn_mono kv.2 lo hi lo2 hi2 hlo hhi (h kv hkv)

theorem refsInObj_set : ∀ (o : HObj) (lo hi : Nat) (k : String) (x : HVal),
    refsInObj lo hi o = true → refsIn lo hi x = true →
    refsInObj lo hi (HObj.set o k x) = true
  | [], lo, hi, k, x, _, hx => by
      show refsInObj lo hi [(k, x)] = true
      simp only [refsInObj, List.all_cons, List.all_nil, Bool.and_true]
      exact hx
  | (k1, v1) :: tl, lo, hi, k, x, ho, hx => by
      simp only [refsInObj, List.all_cons, Bool.and_eq_true] at ho
      show refsInObj lo hi (if k1 = k then (k, x) :: tl else (k1, v1) :: HObj.set tl k x) = true
      by_cases hk : k1 = k
      · rw [if_pos hk]
        simp only [refsInObj, List.all_cons, Bool.and_eq_true]
        exact ⟨hx, ho.2⟩
      · rw [if_neg hk]
        simp only [refsInObj, List.all_cons, Bool.and_eq_true]
        refine ⟨ho.1, ?_⟩
        have := refsInObj_set tl lo hi k x (by simpa [refsInObj] using ho.2) hx
        simpa [refsInObj] using this

theorem hobjLookup_refs (o : HObj) (lo hi : Nat) (k : String) (v : HVal)
    (ho : refsInObj lo hi o = true) (hl : HObj.lookup o k = some v) :
    refsIn lo hi v = true := by
  induction o with
  | nil => cases hl
  | cons kv tl ih =>
      simp only [refsInObj, List.all_cons, Bool.and_eq_true] at ho
      by_cases hk : kv.1 = k
      · rw [HObj.lookup, if_pos hk] at hl
        cases hl
        exact ho.1
      · rw [HObj.lookup, if_neg hk] at hl
        exact ih ho.2 hl

theorem heapExtends_refl (h : Heap) : heapExtends h h :=
  ⟨le_refl _, fun _ _ => rfl⟩

theorem heapExtends_trans (h1 h2 h3 : Heap) (h21 : heapExtends h2 h1)
    (h32 : heapExtends h3 h2) : heapExtends h3 h1 :=
  ⟨le_trans h21.1 h32.1,
   fun i hi => (h32.2 i (lt_of_lt_of_le hi h21.1)).trans (h21.2 i hi)⟩

mutual
theorem allocJ_extends : ∀ (j : JValue) (h : Heap), heapExtends (allocJ j h).1 h
  | JValue.null, h => heapExtends_refl h
  | JValue.bool _, h => heapExtends_refl h
  | JValue.num _, h => heapExtends_refl h
  | JValue.str _, h => heapExtends_refl h
  | JValue.arr l, h => allocArr_extends l h
  | JValue.obj o, h => by
      have ho := allocObj_extends o h
      refine ⟨?_, ?_⟩
      · show h.length ≤ ((allocObj o h).1 ++ [(allocObj o h).2]).length
        simp only [List.length_append, List.length_cons, List.length_nil]
        have h1 := ho.1
        omega
      · intro i hi
        show ((allocObj o h).1 ++ [(allocObj o h).2])[i]? = h[i]?
        rw [List.getElem?_append_left (lt_of_lt_of_le hi ho.1)]
        exact ho.2 i hi

theorem allocArr_extends : ∀ (l : List JValue) (h : Heap), heapExtends (allocArr l h).1 h
  | [], h => heapExtends_refl h
  | v :: tl, h =>
      heapExtends_trans _ _ _ (allocJ_extends v h) (allocArr_extends tl (allocJ v h).1)

theorem allocObj_extends : ∀ (o : List (String × JValue)) (h : Heap),
    heapExtends (allocObj o h).1 h
  | [], h => heapExtends_refl h
  | kv :: tl, h =>
      heapExtends_trans _ _ _ (allocJ_extends kv.2 h) (allocObj_extends tl (allocJ kv.2 h).1)
end

mutual
theorem allocJ_refs : ∀ (j : JValue) (h : Heap),
    refsIn h.length (allocJ j h).1.length (allocJ j h).2 = true
  | JValue.null, _ => rfl
  | JValue.bool _, _ => rfl
  | JValue.num _, _ => rfl
  | JValue.str _, _ => rfl
  | JValue.arr l, h => allocArr_refs l h
  | JValue.obj o, h => by
      have ho := (allocObj_extends o h).1
      show refsIn h.length ((allocObj o h).1 ++ [(allocObj o h).2]).length
        (HVal.ref (allocObj o h).1.length) = true
      simp only [refsIn, List.length_append, List.length_cons, List.length_nil,
        Bool.and_eq_true, decide_eq_true_eq]
      omega

theorem allocArr_refs : ∀ (l : List JValue) (h : Heap),
    refsInList h.length (allocArr l h).1.length (allocArr l h).2 = true
  | [], _ => rfl
  | v :: tl, h => by
      have h1 := allocJ_refs v h
      have h2 := allocArr_refs tl (allocJ v h).1
      have hext := (allocArr_extends tl (allocJ v h).1).1
      have hext0 := (allocJ_extends v h).1
      show refsInList h.length (allocArr tl (allocJ v h).1).1.length
        ((allocJ v h).2 :: (allocArr tl (allocJ v h).1).2) = true
      simp only [refsInList, Bool.and_eq_true]
      exact ⟨refsIn_mono _ _ _ _ _ (le_refl _) hext h1,
        refsInList_mono _ _ _ _ _ hext0 (le_refl _) h2⟩

theorem allocObj_refs : ∀ (o : List (String × JValue)) (h : Heap),
    refsInObj h.length (allocObj o h).1.length (allocObj o h).2 = true
  | [], _ => rfl
  | kv :: tl, h => by
      have h1 := allocJ_refs kv.2 h
      have h2 := allocObj_refs tl (allocJ kv.2 h).1
      have hext := (allocObj_extends tl (allocJ kv.2 h).1).1
      have hext0 := (allocJ_extends kv.2 h).1
      show refsInObj h.length (allocObj tl (allocJ kv.2 h).1).1.length
        ((kv.1, (allocJ kv.2 h).2) :: (allocObj tl (allocJ kv.2 h).1).2) = true
      simp only [refsInObj, List.all_cons, Bool.and_eq_true]
      refine ⟨refsIn_mono _ _ _ _ _ (le_refl _) hext h1, ?_⟩
      have := refsInObj_mono _ _ _ _ _ hext0 (le_refl _) h2
      simpa [refsInObj] using this
end

theorem optionMapM_cons {α β : Type} (f : α → Option β) (x : α) (l : List α) (r : List β)
    (h : List.mapM f (x :: l) = some r) :
    ∃ b bs, f x = some b ∧ List.mapM f l = some bs ∧ r = b :: bs := by
  rw [List.mapM_cons] at h
  cases hfx : f x with
  | none => rw [hfx] at h; simp at h
  | some b =>
      rw [hfx] at h
      cases hml : List.mapM f l with
      | none => rw [hml] at h; simp at h
      | some bs =>
          rw [hml] at h
          refine ⟨b, bs, rfl, rfl, ?_⟩
          have h2 : (some (b :: bs) : Option (List β)) = some r := by simpa using h
          exact (Option.some_inj.mp h2).symm

theorem optionMapM_congr {α β : Type} (f g : α → Option β) (l : List α)
    (h : ∀ x ∈ l, f x = g x) : l.mapM f = l.mapM g := by
  induction l with
  | nil => rfl
  | cons x tl ih =>
      rw [List.mapM_cons, List.mapM_cons, h x (List.mem_cons_self x tl),
        ih (fun y hy => h y (List.mem_cons_of_mem _ hy))]

theorem heapExtends_append (h e : Heap) : heapExtends (h ++ e) h :=
  ⟨by simp, fun i hi => List.getElem?_append_left hi⟩

mutual
theorem allocJ_fresh : ∀ (j : JValue) (h : Heap) (i : Nat) (o2 : HObj),
    h.length ≤ i → (allocJ j h).1[i]? = some o2 →
    refsInObj h.length (allocJ j h).1.length o2 = true
  | JValue.null, h, i, o2, hi, ho2 => by
      have hh : h[i]? = some o2 := ho2
      rw [List.getElem?_eq_none hi] at hh
      cases hh
  | JValue.bool _, h, i, o2, hi, ho2 => by
      have hh : h[i]? = some o2 := ho2
      rw [List.getElem?_eq_none hi] at hh
      cases hh
  | JValue.num _, h, i, o2, hi, ho2 => by
      have hh : h[i]? = some o2 := ho2
      rw [List.getElem?_eq_none hi] at hh
      cases hh
  | JValue.str _, h, i, o2, hi, ho2 => by
      have hh : h[i]? = some o2 := ho2
      rw [List.getElem?_eq_none hi] at hh
      cases hh
  | JValue.arr l, h, i, o2, hi, ho2 => allocArr_fresh l h i o2 hi ho2
  | JValue.obj o, h, i, o2, hi, ho2 => by
      have hext := allocObj_extends o h
      have hh : ((allocObj o h).1 ++ [(allocObj o h).2])[i]? = some o2 := ho2
      show refsInObj h.length ((allocObj o h).1 ++ [(allocObj o h).2]).length o2 = true
      have hlen : ((allocObj o h).1 ++ [(allocObj o h).2]).length
          = (allocObj o h).1.length + 1 := by
        simp
      by_cases hlt : i < (allocObj o h).1.length
      · rw [List.getElem?_append_left hlt] at hh
        have hf := allocObj_fresh o h i o2 hi hh
        exact refsInObj_mono _ _ _ _ _ (le_refl _) (by rw [hlen]; omega) hf
      · have hge : (allocObj o h).1.length ≤ i := le_of_not_lt hlt
        rw [List.getElem?_append_right hge] at hh
        by_cases he : i - (allocObj o h).1.length = 0
        · rw [he] at hh
          have hh2 : some (allocObj o h).2 = some o2 := hh
          cases hh2
          have hr := allocObj_refs o h
          exact refsInObj_mono _ _ _ _ _ (le_refl _) (by rw [hlen]; omega) hr
        · have hnone : ([(allocObj o h).2] : Heap)[i - (allocObj o h).1.length]? = none := by
            apply List.getElem?_eq_none
            simp
            omega
          rw [hnone] at hh
          cases hh

theorem allocArr_fresh : ∀ (l : List JValue) (h : Heap) (i : Nat) (o2 : HObj),
    h.length ≤ i → (allocArr l h).1[i]? = some o2 →
    refsInObj h.length (allocArr l h).1.length o2 = true
  | [], h, i, o2, hi, ho2 => by
      have hh : h[i]? = some o2 := ho2
      rw [List.getElem?_eq_none hi] at hh
      cases hh
  | v :: tl, h, i, o2, hi, ho2 => by
      have h1 := allocJ_extends v h
      have h2 := allocArr_extends tl (allocJ v h).1
      have hh : (allocArr tl (allocJ v h).1).1[i]? = some o2 := ho2
      show refsInObj h.length (allocArr tl (allocJ v h).1).1.length o2 = true
      by_cases hlt : i < (allocJ v h).1.length
      · rw [h2.2 i hlt] at hh
        have hf := allocJ_fresh v h i o2 hi hh
        exact refsInObj_mono _ _ _ _ _ (le_refl _) h2.1 hf
      · have hf := allocArr_fresh tl (allocJ v h).1 i o2 (le_of_not_lt hlt) hh
        exact refsInObj_mono _ _ _ _ _ h1.1 (le_refl _) hf

theorem allocObj_fresh : ∀ (o : List (String × JValue)) (h : Heap) (i : Nat) (o2 : HObj),
    h.length ≤ i → (allocObj o h).1[i]? = some o2 →
    refsInObj h.length (allocObj o h).1.length o2 = true
  | [], h, i, o2, hi, ho2 => by
      have hh : h[i]? = some o2 := ho2
      rw [List.getElem?_eq_none hi] at hh
      cases hh
  | kv :: tl, h, i, o2, hi, ho2 => by
      have h1 := allocJ_extends kv.2 h
      have h2 := allocObj_extends tl (allocJ kv.2 h).1
      have hh : (allocObj tl (allocJ kv.2 h).1).1[i]? = some o2 := ho2
      show refsInObj h.length (allocObj tl (allocJ kv.2 h).1).1.length o2 = true
      by_cases hlt : i < (allocJ kv.2 h).1.length
      · rw [h2.2 i hlt] at hh
        have hf := allocJ_fresh kv.2 h i o2 hi hh
        exact refsInObj_mono _ _ _ _ _ (le_refl _) h2.1 hf
      · have hf := allocObj_fresh tl (allocJ kv.2 h).1 i o2 (le_of_not_lt hlt) hh
        exact refsInObj_mono _ _ _ _ _ h1.1 (le_refl _) hf
end

theorem closedBelow_alloc (j : JValue) (h : Heap) (hcl : closedBelow h h.length) :
    closedBelow (allocJ j h).1 (allocJ j h).1.length := by
  intro i hi o2 ho2
  by_cases hlt : i < h.length
  · rw [(allocJ_extends j h).2 i hlt] at ho2
    exact refsInObj_mono _ _ _ _ _ (Nat.zero_le _) (allocJ_extends j h).1 (hcl i hlt o2 ho2)
  · exact refsInObj_mono _ _ _ _ _ (Nat.zero_le _) (le_refl _)
      (allocJ_fresh j h i o2 (le_of_not_lt hlt) ho2)

theorem closedBelow_nil : closedBelow [] 0 := by
  intro i hi
  omega

/-- Reading only inspects the cells below `n` when every reference in
the value (and transitively in those cells) stays below `n`, so two
heaps agreeing there give the same read. -/
theorem readH_agree : ∀ (fuel n : Nat) (h1 h2 : Heap) (v : HVal),
    refsIn 0 n v = true → closedBelow h1 n → agreeBelow h1 h2 n →
    readH h1 fuel v = readH h2 fuel v := by
  intro fuel
  induction fuel with
  | zero => intro n h1 h2 v _ _ _; rfl
  | succ f ih =>
      intro n h1 h2 v hv hcl hag
      cases v with
      | null => rfl
      | bool b => rfl
      | num q => rfl
      | str s => rfl
      | arr l =>
          show (l.mapM (readH h1 f)).map JValue.arr = (l.mapM (readH h2 f)).map JValue.arr
          have hm : l.mapM (readH h1 f) = l.mapM (readH h2 f) := by
            apply optionMapM_congr
            intro x hx
            have hxr : refsIn 0 n x = true := by
              have hl : refsInList 0 n l = true := hv
              clear hv
              induction l with
              | nil => cases hx
              | cons y tl ihl =>
                  simp only [refsInList, Bool.and_eq_true] at hl
                  rcases List.mem_cons.mp hx with rfl | hmem
                  · exact hl.1
                  · exact ihl hmem hl.2
            exact ih n h1 h2 x hxr hcl hag
          rw [hm]
      | ref a =>
          have ha : a < n := by
            have := hv
            simp only [refsIn, Bool.and_eq_true, decide_eq_true_eq] at this
            exact this.2
          show (match h1[a]? with
              | none => none
              | some o =>
                  (o.mapM (fun kv : String × HVal =>
                    (readH h1 f kv.2).map (fun j => (kv.1, j)))).map JValue.obj)
            = (match h2[a]? with
              | none => none
              | some o =>
                  (o.mapM (fun kv : String × HVal =>
                    (readH h2 f kv.2).map (fun j => (kv.1, j)))).map JValue.obj)
          rw [← hag a ha]
          cases hget : h1[a]? with
          | none => rfl
          | some o =>
              have hobj : refsInObj 0 n o = true := hcl a ha o hget
              have hm : o.mapM (fun kv => (readH h1 f kv.2).map (fun j => (kv.1, j)))
                  = o.mapM (fun kv => (readH h2 f kv.2).map (fun j => (kv.1, j))) := by
                apply optionMapM_congr
                intro kv hkv
                have hxr : refsIn 0 n kv.2 = true := by
                  simp only [refsInObj, List.all_eq_true] at hobj
                  exact hobj kv hkv
                rw [ih n h1 h2 kv.2 hxr hcl hag]
              show (o.mapM (fun kv : String × HVal =>
                    (readH h1 f kv.2).map (fun j => (kv.1, j)))).map JValue.obj
                  = (o.mapM (fun kv : String × HVal =>
                    (readH h2 f kv.2).map (fun j => (kv.1, j)))).map JValue.obj
              rw [hm]

mutual
/-- A successful read of a freshly allocated tree (in any heap that
extends the allocation result) can only return the allocated value. -/
theorem allocJ_read_correct : ∀ (j0 : JValue) (h H : Heap) (f : Nat) (j : JValue),
    heapExtends H (allocJ j0 h).1 → readH H f (allocJ j0 h).2 = some j → j = j0
  | JValue.null, _, H, f, j, _, hr => by
      cases f with
      | zero => cases hr
      | succ f =>
          have h2 : (some JValue.null : Option JValue) = some j := hr
          cases h2
          rfl
  | JValue.bool b, _, H, f, j, _, hr => by
      cases f with
      | zero => cases hr
      | succ f =>
          have h2 : (some (JValue.bool b) : Option JValue) = some j := hr
          cases h2
          rfl
  | JValue.num q, _, H, f, j, _, hr => by
      cases f with
      | zero => cases hr
      | succ f =>
          have h2 : (some (JValue.num q) : Option JValue) = some j := hr
          cases h2
          rfl
  | JValue.str s, _, H, f, j, _, hr => by
      cases f with
      | zero => cases hr
      | succ f =>
          have h2 : (some (JValue.str s) : Option JValue) = some j := hr
          cases h2
          rfl
  | JValue.arr l, h, H, f, j, hext, hr => by
      cases f with
      | zero => cases hr
      | succ f =>
          have h2 : ((allocArr l h).2.mapM (readH H f)).map JValue.arr = some j := hr
          obtain ⟨js, hjs, hj⟩ := Option.map_eq_some'.mp h2
          have he := allocArr_read_correct l h H f js hext hjs
          cases hj
          rw [he]
  | JValue.obj o, h, H, f, j, hext, hr => by
      cases f with
      | zero => cases hr
      | succ f =>
          have haddr : H[(allocObj o h).1.length]? = some (allocObj o h).2 := by
            have hlt : (allocObj o h).1.length
                < ((allocObj o h).1 ++ [(allocObj o h).2]).length := by simp
            have h1 := hext.2 (allocObj o h).1.length hlt
            rw [h1]
            exact List.getElem?_concat_length _ _
          have h2 : (match H[(allocObj o h).1.length]? with
              | none => none
              | some ob => (ob.mapM (fun kv : String × HVal =>
                  (readH H f kv.2).map (fun jj => (kv.1, jj)))).map JValue.obj) = some j := hr
          rw [haddr] at h2
          have h3 : ((allocObj o h).2.mapM (fun kv : String × HVal =>
              (readH H f kv.2).map (fun jj => (kv.1, jj)))).map JValue.obj = some j := h2
          obtain ⟨kjs, hkjs, hj⟩ := Option.map_eq_some'.mp h3
          have hOext : heapExtends H (allocObj o h).1 :=
            heapExtends_trans _ _ _ (heapExtends_append _ _) hext
          have he := allocObj_read_correct o h H f kjs hOext hkjs
          cases hj
          rw [he]

theorem allocArr_read_correct : ∀ (l0 : List JValue) (h H : Heap) (f : Nat) (js : List JValue),
    heapExtends H (allocArr l0 h).1 →
    List.mapM (readH H f) (allocArr l0 h).2 = some js → js = l0
  | [], _, H, f, js, _, hr => by
      have h2 : (some [] : Option (List JValue)) = some js := hr
      cases h2
      rfl
  | v :: tl, h, H, f, js, hext, hr => by
      have h2 : List.mapM (readH H f)
          ((allocJ v h).2 :: (allocArr tl (allocJ v h).1).2) = some js := hr
      obtain ⟨b, bs, hb, hbs, rfl⟩ := optionMapM_cons _ _ _ _ h2
      have hext1 : heapExtends H (allocJ v h).1 :=
        heapExtends_trans _ _ _ (allocArr_extends tl (allocJ v h).1) hext
      have e1 := allocJ_read_correct v h H f b hext1 hb
      have e2 := allocArr_read_correct tl (allocJ v h).1 H f bs hext hbs
      rw [e1, e2]

theorem allocObj_read_correct : ∀ (o0 : List (String × JValue)) (h H : Heap) (f : Nat)
    (kjs : List (String × JValue)),
    heapExtends H (allocObj o0 h).1 →
    List.mapM (fun kv : String × HVal => (readH H f kv.2).map (fun jj => (kv.1, jj)))
      (allocObj o0 h).2 = some kjs → kjs = o0
  | [], _, H, f, kjs, _, hr => by
      have h2 : (some [] : Option (List (String × JValue))) = some kjs := hr
      cases h2
      rfl
  | kv :: tl, h, H, f, kjs, hext, hr => by
      have h2 : List.mapM (fun p : String × HVal => (readH H f p.2).map (fun jj => (p.1, jj)))
          ((kv.1, (allocJ kv.2 h).2) :: (allocObj tl (allocJ kv.2 h).1).2) = some kjs := hr
      obtain ⟨b, bs, hb, hbs, rfl⟩ := optionMapM_cons _ _ _ _ h2
      obtain ⟨j1, hj1, hb2⟩ := Option.map_eq_some'.mp hb
      have hext1 : heapExtends H (allocJ kv.2 h).1 :=
        heapExtends_trans _ _ _ (allocObj_extends tl (allocJ kv.2 h).1) hext
      have e1 := allocJ_read_correct kv.2 h H f j1 hext1 hj1
      have e2 := allocObj_read_correct tl (allocJ kv.2 h).1 H f bs hext hbs
      rw [e2, ← hb2, e1]
end

theorem agreeBelow_of_extends (H h : Heap) (n : Nat) (hn : n ≤ h.length)
    (hext : heapExtends H h) : agreeBelow h H n :=
  fun i hi => (hext.2 i (lt_of_lt_of_le hi hn)).symm

theorem agreeBelow_symm (h1 h2 : Heap) (n : Nat) (ha : agreeBelow h1 h2 n) :
    agreeBelow h2 h1 n :=
  fun i hi => (ha i hi).symm

theorem agreeBelow_trans (h1 h2 h3 : Heap) (n : Nat) (ha : agreeBelow h1 h2 n)
    (hb : agreeBelow h2 h3 n) : agreeBelow h1 h3 n :=
  fun i hi => (ha i hi).trans (hb i hi)

/-- Allocation preserves the write-phase invariant: cells at addresses
`≥ n` keep all their references at addresses `≥ n`. -/
theorem fresh_alloc (n : Nat) (j : JValue) (h : Heap) (hn : n ≤ h.length)
    (hf : ∀ i o, n ≤ i → h[i]? = some o → refsInObj n h.length o = true) :
    ∀ i o, n ≤ i → (allocJ j h).1[i]? = some o →
      refsInObj n (allocJ j h).1.length o = true := by
  intro i o hi ho
  by_cases hlt : i < h.length
  · rw [(allocJ_extends j h).2 i hlt] at ho
    exact refsInObj_mono _ _ _ _ _ (le_refl _) (allocJ_extends j h).1 (hf i o hi ho)
  · have hfr := allocJ_fresh j h i o (le_of_not_lt hlt) ho
    exact refsInObj_mono _ _ _ _ _ hn (le_refl _) hfr

/-- A heap-cell field read through a reference at address `≥ n` (in a
heap whose cells `≥ n` only reference `≥ n`) yields a value whose
references stay in the window. -/
theorem readKeyAt_refs (n : Nat) (H : Heap) (v w : HVal) (k : String)
    (hf : ∀ i o, n ≤ i → H[i]? = some o → refsInObj n H.length o = true)
    (hv : refsIn n H.length v = true)
    (hr : readKeyAt H v k = some w) :
    refsIn n H.length w = true := by
  cases v with
  | ref a =>
      simp only [refsIn, Bool.and_eq_true, decide_eq_true_eq] at hv
      rw [readKeyAt] at hr
      cases hga : H[a]? with
      | none => rw [hga] at hr; cases hr
      | some o =>
          rw [hga] at hr
          exact hobjLookup_refs o n H.length k w (hf a o hv.1 hga) hr
  | null => cases hr
  | bool b => cases hr
  | num q => cases hr
  | str s => cases hr
  | arr l => cases hr

/-- An in-place dict update through a reference at address `≥ n`, with a
written value whose references are `≥ n`, keeps the heap length, keeps
every cell below `n` intact, and preserves the freshness invariant. -/
theorem writeKeyAt_inv (n : Nat) (h3 H H2 : Heap) (v x : HVal) (k : String)
    (ha : agreeBelow H h3 n)
    (hf : ∀ i o, n ≤ i → H[i]? = some o → refsInObj n H.length o = true)
    (hv : refsIn n H.length v = true)
    (hx : refsIn n H.length x = true)
    (hw : writeKeyAt H v k x = some H2) :
    H2.length = H.length ∧ agreeBelow H2 h3 n
      ∧ (∀ i o, n ≤ i → H2[i]? = some o → refsInObj n H2.length o = true) := by
  cases v with
  | ref a =>
      simp only [refsIn, Bool.and_eq_true, decide_eq_true_eq] at hv
      rw [writeKeyAt] at hw
      cases hga : H[a]? with
      | none => rw [hga] at hw; cases hw
      | some o =>
          rw [hga] at hw
          have hw2 : some (List.set H a (HObj.set o k x)) = some H2 := hw
          cases hw2
          refine ⟨List.length_set H a _, ?_, ?_⟩
          · intro i hi
            rw [List.getElem?_set_ne (by omega : a ≠ i)]
            exact ha i hi
          · intro i o2 hi ho2
            rw [List.length_set]
            by_cases hia : i = a
            · subst hia
              rw [List.getElem?_set_self hv.2] at ho2
              cases ho2
              exact refsInObj_set o n H.length k x (hf i o hv.1 hga) hx
            · rw [List.getElem?_set_ne (fun hh => hia hh.symm)] at ho2
              exact hf i o2 hi ho2
  | null => cases hw
  | bool b => cases hw
  | num q => cases hw
  | str s => cases hw
  | arr l => cases hw

/-- The six env-config updates keep the heap length, keep every cell
below `n` intact, and preserve the freshness invariant, provided the
reference they write through has its address `≥ n`. -/
theorem envPatchHeapStep_inv (n : Nat) (h3 H H2 : Heap) (vOut : HVal)
    (ha : agreeBelow H h3 n)
    (hf : ∀ i o, n ≤ i → H[i]? = some o → refsInObj n H.length o = true)
    (hv : refsIn n H.length vOut = true)
    (hw : envPatchHeapStep H vOut = some H2) :
    H2.length = H.length ∧ agreeBelow H2 h3 n
      ∧ (∀ i o, n ≤ i → H2[i]? = some o → refsInObj n H2.length o = true) := by
  rw [envPatchHeapStep] at hw
  simp only [Option.bind_eq_bind, Option.bind_eq_some] at hw
  obtain ⟨h7, hw7, emb, hemb, h8, hw8, h9, hw9, md, hmd, h10, hw10, od, hod,
    h11, hw11, hw12⟩ := hw
  obtain ⟨l7, a7, f7⟩ := writeKeyAt_inv n h3 H h7 vOut (HVal.str dataroot_dir)
    "data_base_dir" ha hf hv rfl hw7
  have hv7 : refsIn n h7.length vOut = true := by rw [l7]; exact hv
  obtain ⟨l8, a8, f8⟩ := writeKeyAt_inv n h3 h7 h8 vOut
    (HVal.str (ospath_join work_dir emb)) "embedding_base_dir" a7 f7 hv7 rfl hw8
  have hv8 : refsIn n h8.length vOut = true := by rw [l8]; exact hv7
  obtain ⟨l9, a9, f9⟩ := writeKeyAt_inv n h3 h8 h9 vOut
    (HVal.str datalist_file) "json_data_list" a8 f8 hv8 rfl hw9
  have hv9 : refsIn n h9.length vOut = true := by rw [l9]; exact hv8
  obtain ⟨l10, a10, f10⟩ := writeKeyAt_inv n h3 h9 h10 vOut
    (HVal.str (ospath_join work_dir md)) "model_dir" a9 f9 hv9 rfl hw10
  have hv10 : refsIn n h10.length vOut = true := by rw [l10]; exact hv9
  obtain ⟨l11, a11, f11⟩ := writeKeyAt_inv n h3 h10 h11 vOut
    (HVal.str (ospath_join work_dir od)) "output_dir" a10 f10 hv10 rfl hw11
  have hv11 : refsIn n h11.length vOut = true := by rw [l11]; exact hv10
  obtain ⟨l12, a12, f12⟩ := writeKeyAt_inv n h3 h11 H2 vOut
    HVal.null "trained_autoencoder_path" a11 f11 hv11 rfl hw12
  refine ⟨?_, a12, f12⟩
  rw [l12, l11, l10, l9, l8, l7]

/-- A nested update `out[k1][k2] = q` keeps the heap length, keeps every
cell below `n` intact, and preserves the freshness invariant. -/
theorem nestedNumStep_inv (n : Nat) (h3 H H2 : Heap) (vOut : HVal) (k1 k2 : String) (q : ℚ)
    (ha : agreeBelow H h3 n)
    (hf : ∀ i o, n ≤ i → H[i]? = some o → refsInObj n H.length o = true)
    (hv : refsIn n H.length vOut = true)
    (hw : nestedNumStep H vOut k1 k2 q = some H2) :
    H2.length = H.length ∧ agreeBelow H2 h3 n
      ∧ (∀ i o, n ≤ i → H2[i]? = some o → refsInObj n H2.length o = true) := by
  rw [nestedNumStep] at hw
  simp only [Option.bind_eq_bind, Option.bind_eq_some] at hw
  obtain ⟨inner, hinner, hw2⟩ := hw
  have hvi : refsIn n H.length inner = true := readKeyAt_refs n H vOut inner k1 hf hv hinner
  exact writeKeyAt_inv n h3 H H2 inner (HVal.num q) k2 ha hf hvi rfl hw2

/-- C10: the three configuration dictionaries loaded from the
`./configs` files are never mutated: the patching is applied to
`copy.deepcopy` copies, so after the cell runs, `env_config`,
`model_config` and `model_def` still hold the contents of the files
they were read from. -/
theorem C10_loaded_configs_unchanged :
    ∀ (fuel : Nat) (e m d : JObj) (st : CellState),
      runConfigCell fuel e m d = some st →
      readH st.heap fuel st.env_config = some (JValue.obj e)
      ∧ readH st.heap fuel st.model_config = some (JValue.obj m)
      ∧ readH st.heap fuel st.model_def = some (JValue.obj d) := by
  intro fuel e m d st hrun
  rw [runConfigCell] at hrun
  simp only [Option.bind_eq_bind, Option.bind_eq_some, Option.pure_def,
    Option.some.injEq] at hrun
  obtain ⟨qe, hqe, qm, hqm, qd, hqd, h12, hs12, h13, hs13, h14, hs14, hst⟩ := hrun
  rw [deepcopyH] at hqe hqm hqd
  obtain ⟨jE, hjE, hqe2⟩ := Option.map_eq_some'.mp hqe
  subst hqe2
  obtain ⟨jM, hjM, hqm2⟩ := Option.map_eq_some'.mp hqm
  subst hqm2
  obtain ⟨jD, hjD, hqd2⟩ := Option.map_eq_some'.mp hqd
  subst hqd2
  set h1 := (allocJ (JValue.obj e) []).1 with hh1
  set vE := (allocJ (JValue.obj e) []).2 with hvE
  set h2 := (allocJ (JValue.obj m) h1).1 with hh2
  set vM := (allocJ (JValue.obj m) h1).2 with hvM
  set h3 := (allocJ (JValue.obj d) h2).1 with hh3
  set vD := (allocJ (JValue.obj d) h2).2 with hvD
  set h4 := (allocJ jE h3).1 with hh4
  set vE2 := (allocJ jE h3).2 with hvE2
  set h5 := (allocJ jM h4).1 with hh5
  set vM2 := (allocJ jM h4).2 with hvM2
  set h6 := (allocJ jD h5).1 with hh6
  set vD2 := (allocJ jD h5).2 with hvD2
  have ext21 : heapExtends h2 h1 := allocJ_extends (JValue.obj m) h1
  have ext32 : heapExtends h3 h2 := allocJ_extends (JValue.obj d) h2
  have ext43 : heapExtends h4 h3 := allocJ_extends jE h3
  have ext54 : heapExtends h5 h4 := allocJ_extends jM h4
  have ext65 : heapExtends h6 h5 := allocJ_extends jD h5
  have ext31 : heapExtends h3 h1 := heapExtends_trans _ _ _ ext21 ext32
  have ext53 : heapExtends h5 h3 := heapExtends_trans _ _ _ ext43 ext54
  have ext63 : heapExtends h6 h3 :=
    heapExtends_trans _ _ _ ext43 (heapExtends_trans _ _ _ ext54 ext65)
  have cl1 : closedBelow h1 h1.length := closedBelow_alloc (JValue.obj e) [] closedBelow_nil
  have cl2 : closedBelow h2 h2.length := closedBelow_alloc (JValue.obj m) h1 cl1
  have cl3 : closedBelow h3 h3.length := closedBelow_alloc (JValue.obj d) h2 cl2
  have rE1 : refsIn 0 h1.length vE = true := allocJ_refs (JValue.obj e) []
  have rM2 : refsIn h1.length h2.length vM = true := allocJ_refs (JValue.obj m) h1
  have rD3 : refsIn h2.length h3.length vD = true := allocJ_refs (JValue.obj d) h2
  have rE3 : refsIn 0 h3.length vE = true :=
    refsIn_mono vE 0 h1.length 0 h3.length (le_refl 0) ext31.1 rE1
  have rM3 : refsIn 0 h3.length vM = true :=
    refsIn_mono vM h1.length h2.length 0 h3.length (Nat.zero_le _) ext32.1 rM2
  have rD3a : refsIn 0 h3.length vD = true :=
    refsIn_mono vD h2.length h3.length 0 h3.length (Nat.zero_le _) (le_refl _) rD3
  have rM2a : refsIn 0 h2.length vM = true :=
    refsIn_mono vM h1.length h2.length 0 h2.length (Nat.zero_le _) (le_refl _) rM2
  have hjE2 : jE = JValue.obj e := by
    have hag : agreeBelow h1 h3 h1.length :=
      agreeBelow_of_extends h3 h1 h1.length (le_refl _) ext31
    rw [← readH_agree fuel h1.length h1 h3 vE rE1 cl1 hag] at hjE
    exact allocJ_read_correct (JValue.obj e) [] h1 fuel jE (heapExtends_refl _) hjE
  have hjM2 : jM = JValue.obj m := by
    have hag : agreeBelow h2 h4 h2.length :=
      agreeBelow_of_extends h4 h2 h2.length (le_refl _) (heapExtends_trans _ _ _ ext32 ext43)
    rw [← readH_agree fuel h2.length h2 h4 vM rM2a cl2 hag] at hjM
    exact allocJ_read_correct (JValue.obj m) h1 h2 fuel jM (heapExtends_refl _) hjM
  have hjD2 : jD = JValue.obj d := by
    have hag : agreeBelow h3 h5 h3.length :=
      agreeBelow_of_extends h5 h3 h3.length (le_refl _) ext53
    rw [← readH_agree fuel h3.length h3 h5 vD rD3a cl3 hag] at hjD
    exact allocJ_read_correct (JValue.obj d) h2 h3 fuel jD (heapExtends_refl _) hjD
  have hf3 : ∀ i o, h3.length ≤ i → h3[i]? = some o →
      refsInObj h3.length h3.length o = true := by
    intro i o hi ho
    rw [List.getElem?_eq_none hi] at ho
    cases ho
  have hf4 := fresh_alloc h3.length jE h3 (le_refl _) hf3
  have hf5 := fresh_alloc h3.length jM h4 ext43.1 hf4
  have hf6 := fresh_alloc h3.length jD h5 (le_trans ext43.1 ext54.1) hf5
  have ha6 : agreeBelow h6 h3 h3.length := fun i hi => ext63.2 i hi
  have rOutE : refsIn h3.length h6.length vE2 = true :=
    refsIn_mono vE2 h3.length h4.length h3.length h6.length (le_refl _)
      (le_trans ext54.1 ext65.1) (allocJ_refs jE h3)
  have rOutM : refsIn h3.length h6.length vM2 = true :=
    refsIn_mono vM2 h4.length h5.length h3.length h6.length ext43.1 ext65.1
      (allocJ_refs jM h4)
  have rOutD : refsIn h3.length h6.length vD2 = true :=
    refsIn_mono vD2 h5.length h6.length h3.length h6.length (le_trans ext43.1 ext54.1)
      (le_refl _) (allocJ_refs jD h5)
  obtain ⟨l12, a12, f12⟩ := envPatchHeapStep_inv h3.length h3 h6 h12 vE2 ha6 hf6 rOutE hs12
  have rM12 : refsIn h3.length h12.length vM2 = true := by rw [l12]; exact rOutM
  obtain ⟨l13, a13, f13⟩ := nestedNumStep_inv h3.length h3 h12 h13 vM2
    "diffusion_unet_train" "n_epochs" max_epochs a12 f12 rM12 hs13
  have rD13 : refsIn h3.length h13.length vD2 = true := by rw [l13, l12]; exact rOutD
  obtain ⟨l14, a14, f14⟩ := nestedNumStep_inv h3.length h3 h13 h14 vD2
    "autoencoder_def" "num_splits" 4 a13 f13 rD13 hs14
  subst hst
  have hag14 : agreeBelow h3 h14 h3.length := agreeBelow_symm _ _ _ a14
  refine ⟨?_, ?_, ?_⟩
  · show readH h14 fuel vE = some (JValue.obj e)
    rw [← readH_agree fuel h3.length h3 h14 vE rE3 cl3 hag14, ← hjE2]
    exact hjE
  · show readH h14 fuel vM = some (JValue.obj m)
    rw [← readH_agree fuel h3.length h3 h14 vM rM3 cl3 hag14]
    have hag34 : agreeBelow h3 h4 h3.length :=
      agreeBelow_of_extends h4 h3 h3.length (le_refl _) ext43
    rw [readH_agree fuel h3.length h3 h4 vM rM3 cl3 hag34, ← hjM2]
    exact hjM
  · show readH h14 fuel vD = some (JValue.obj d)
    rw [← readH_agree fuel h3.length h3 h14 vD rD3a cl3 hag14]
    have hag35 : agreeBelow h3 h5 h3.length :=
      agreeBelow_of_extends h5 h3 h3.length (le_refl _) ext53
    rw [readH_agree fuel h3.length h3 h5 vD rD3a cl3 hag35, ← hjD2]
    exact hjD

/-- Witness for C10 at concrete configuration contents. -/
theorem C10_witness :
    readH ((runConfigCell 9 sample_env_config sample_model_config sample_model_def).getD
        ⟨[], HVal.null, HVal.null, HVal.null, HVal.null, HVal.null, HVal.null⟩).heap 9
      ((runConfigCell 9 sample_env_config sample_model_config sample_model_def).getD
        ⟨[], HVal.null, HVal.null, HVal.null, HVal.null, HVal.null, HVal.null⟩).env_config
      = some (JValue.obj sample_env_config)
    ∧ readH ((runConfigCell 9 sample_env_config sample_model_config sample_model_def).getD
        ⟨[], HVal.null, HVal.null, HVal.null, HVal.null, HVal.null, HVal.null⟩).heap 9
      ((runConfigCell 9 sample_env_config sample_model_config sample_model_def).getD
        ⟨[], HVal.null, HVal.null, HVal.null, HVal.null, HVal.null, HVal.null⟩).model_config
      = some (JValue.obj sample_model_config)
    ∧ readH ((runConfigCell 9 sample_env_config sample_model_config sample_model_def).getD
        ⟨[], HVal.null, HVal.null, HVal.null, HVal.null, HVal.null, HVal.null⟩).heap 9
      ((runConfigCell 9 sample_env_config sample_model_config sample_model_def).getD
        ⟨[], HVal.null, HVal.null, HVal.null, HVal.null, HVal.null, HVal.null⟩).model_def
      = some (JValue.obj sample_model_def) :=
  C10_loaded_configs_unchanged 9 sample_env_config sample_model_config sample_model_def
    ((runConfigCell 9 sample_env_config sample_model_config sample_model_def).getD
      ⟨[], HVal.null, HVal.null, HVal.null, HVal.null, HVal.null, HVal.null⟩) rfl

/-- C8: the simulated image generation is deterministic and entry
independent: a fresh `np.random.RandomState(42)` is built on every loop
iteration, so the voxel data written for any entry equals
`gen 224 224 96 10 1 42`, the two written volumes are equal, and two
runs agree as soon as the (deterministic) generator agrees at that
single reseeded argument tuple. -/
theorem C8_generation_entry_independent :
    ∀ (α : Type) (gen gen2 : Nat → Nat → Nat → Nat → Nat → Nat → α),
      (∀ (d : JObj) (w : String × NiftiImage α), sim_image_write gen d = some w →
        w.2.data = gen 224 224 96 10 1 42)
      ∧ (generate_sim_images gen).map (fun l => l.map (fun p => p.2.data)) =
          some [gen 224 224 96 10 1 42, gen 224 224 96 10 1 42]
      ∧ (gen 224 224 96 10 1 42 = gen2 224 224 96 10 1 42 →
          generate_sim_images gen = generate_sim_images gen2) := by
  intro α gen gen2
  refine ⟨?_, rfl, ?_⟩
  · intro d w hw
    unfold sim_image_write at hw
    split at hw
    · cases hw
      rfl
    · cases hw
  · intro hpt
    unfold generate_sim_images sim_datalist_training
    simp [List.mapM, List.mapM.loop, sim_image_write, JObj.lookup, sim_dim, hpt]

/-- Witness for C8 at a concrete generator and entry. -/
theorem C8_witness :
    ((fun a b c d e f => a + b + c + d + e + f : Nat → Nat → Nat → Nat → Nat → Nat → Nat)
        224 224 96 10 1 42 = 597)
    ∧ (⟨"./temp_work_dir/sim_dataroot/z.nii.gz", (224, 224, 96), 597, np_eye4⟩ :
        String × NiftiImage Nat).2.data =
        (fun a b c d e f => a + b + c + d + e + f) 224 224 96 10 1 42 :=
  ⟨rfl,
   (C8_generation_entry_independent Nat (fun a b c d e f => a + b + c + d + e + f)
      (fun a b c d e f => a + b + c + d + e + f)).1
     [("image", JValue.str "z.nii.gz")]
     ⟨"./temp_work_dir/sim_dataroot/z.nii.gz", (224, 224, 96), 597, np_eye4⟩
     (by rfl)⟩

end Maisi
